import Mathlib

/-!
# Verification of the sp1-hash2curve hash-to-curve pipeline

Shallow embedding of `src/g1.rs`, `src/g2.rs` and `src/lib.rs`.

Conventions of the embedding:
* A base-field element (`Fq` in the source) is a `Nat` below the BN254 prime
  `bnP`; all arithmetic is explicit `% bnP` arithmetic.  The arithmetic
  library (`substrate_bn`) is an external collaborator, so its operations
  (`+`, `-`, `*`, `inverse`, `sqrt`, big-endian encoding) are modelled by
  their documented mathematical contracts; `inverse` and `sqrt` are given by
  explicit executable exponentiation so that everything can be evaluated by
  the kernel.
* An extension-field element (`Fq2`) is a pair of base-field elements
  `(real, imaginary)` with `i^2 = -1`.
* A curve point is `Option (coordinates)` with `none` as the point at
  infinity; the chord-tangent group law models the library's point addition.
* The SHA-256 compression pipeline (`sha2` crate) is an external
  collaborator: `expand_message_xmd` is embedded parameterized over the hash
  function `H`; a full executable SHA-256 (`sha256` below) is also provided
  so that theorems can be evaluated on the repository's own test vectors.
* Rust panics (`assert!`, `unwrap`, division by zero, the `% 0` buffer write
  of `expand_message_xmd` at length 0) are modelled by `Option`, with `none`
  for a panic.
-/

/-- The BN254 base-field prime modulus (the modulus of `Fq`). -/
def bnP : Nat := 21888242871839275222246405745257275088696311157297823662689037894645226208583

/-- The prime order of the BN254 G1/G2 groups (the modulus of `Fr`). -/
def bnR : Nat := 21888242871839275222246405745257275088548364400416034343698204186575808495617

/-- Field addition on canonical representatives. -/
def fqAdd (a b : Nat) : Nat := (a + b) % bnP

/-- Field subtraction on canonical representatives. -/
def fqSub (a b : Nat) : Nat := (a % bnP + (bnP - b % bnP)) % bnP

/-- Field multiplication on canonical representatives. -/
def fqMul (a b : Nat) : Nat := a * b % bnP

/-- Field negation on canonical representatives. -/
def fqNeg (a : Nat) : Nat := (bnP - a % bnP) % bnP

/-- Fuel-driven modular exponentiation (square and multiply); the fuel 256
exceeds the bit length of every exponent used below, and the recursion is
structural so that the kernel can evaluate it. -/
def powModF : Nat → Nat → Nat → Nat → Nat → Nat
  | 0, _, _, n, acc => acc % n
  | fuel + 1, a, b, n, acc =>
      if b = 0 then acc % n
      else powModF fuel (a * a % n) (b / 2) n (if b % 2 = 1 then acc * a % n else acc)

/-- Modular exponentiation, `a ^ b % n` for `b < 2 ^ 256`. -/
def powMod (a b n : Nat) : Nat := powModF 256 a b n 1

/-- Models `Fq::inverse` (an external-library operation): the inverse of a
nonzero field element by Fermat's little theorem, `0` on input `0`. -/
def fqInv0 (a : Nat) : Nat := powMod a (bnP - 2) bnP

/-- Models `Fq::sqrt` (an external-library operation, square-root-if-exists):
since `bnP % 4 = 3`, a candidate root is `a ^ ((bnP+1)/4)`; the final check
makes the contract exact: `some s` with `s * s ≡ a` iff `a` is a square. -/
def fqSqrt (a : Nat) : Option Nat :=
  let s := powMod a ((bnP + 1) / 4) bnP
  if s * s % bnP = a % bnP then some s else none

/-- An extension-field element `real + imaginary * i`, `i^2 = -1`. -/
abbrev Fq2 := Nat × Nat

/-- `Fq2` addition. -/
def fq2Add (a b : Fq2) : Fq2 := (fqAdd a.1 b.1, fqAdd a.2 b.2)

/-- `Fq2` subtraction. -/
def fq2Sub (a b : Fq2) : Fq2 := (fqSub a.1 b.1, fqSub a.2 b.2)

/-- `Fq2` multiplication with `i^2 = -1`. -/
def fq2Mul (a b : Fq2) : Fq2 :=
  (fqSub (fqMul a.1 b.1) (fqMul a.2 b.2), fqAdd (fqMul a.1 b.2) (fqMul a.2 b.1))

/-- `Fq2` negation. -/
def fq2Neg (a : Fq2) : Fq2 := (fqNeg a.1, fqNeg a.2)

/-- Embeds `Conjugate for Fq2` from `src/g2.rs`: keep the real part, negate
the imaginary part. -/
def fq2Conj (a : Fq2) : Fq2 := (a.1 % bnP, fqNeg a.2)

/-- Models `Fq2` inversion (external library): `conj(a) / norm(a)`, `0` on `0`. -/
def fq2Inv0 (a : Fq2) : Fq2 :=
  let d := fqAdd (fqMul a.1 a.1) (fqMul a.2 a.2)
  let di := fqInv0 d
  (fqMul a.1 di, fqMul (fqNeg a.2) di)

/-- Fuel-driven `Fq2` exponentiation (square and multiply). -/
def fq2PowF : Nat → Fq2 → Nat → Fq2 → Fq2
  | 0, _, _, acc => acc
  | fuel + 1, a, e, acc =>
      if e = 0 then acc
      else fq2PowF fuel (fq2Mul a a) (e / 2) (if e % 2 = 1 then fq2Mul acc a else acc)

/-- `Fq2` exponentiation for exponents below `2 ^ 256`. -/
def fq2Pow (a : Fq2) (e : Nat) : Fq2 := fq2PowF 256 a e (1, 0)

/-- Models `Fq2::sqrt` (external library, square-root-if-exists) by the
standard algorithm for `bnP % 4 = 3`; the final squaring check makes the
contract exact: `some s` with `s * s = a` iff `a` is a square. -/
def fq2Sqrt (a : Fq2) : Option Fq2 :=
  if a = ((0 : Nat), (0 : Nat)) then some (0, 0)
  else
    let a1 := fq2Pow a ((bnP - 3) / 4)
    let x0 := fq2Mul a1 a
    let al := fq2Mul a1 x0
    let s :=
      if al = (bnP - 1, 0) then fq2Mul (0, 1) x0
      else fq2Mul (fq2Pow (fq2Add (1, 0) al) ((bnP - 1) / 2)) x0
    if fq2Mul s s = (a.1 % bnP, a.2 % bnP) then some s else none

/-- Continuation-passing case analysis on a natural number.  Semantically the
identity (`natCase n k = k n`), it is used inside iterated computations so
that intermediate numbers are forced to literals when a result is reduced to
weak head normal form, keeping the evaluation stack shallow for the kernel. -/
def natCase {A : Type} (n : Nat) (k : Nat → A) : A :=
  match n with
  | 0 => k 0
  | m + 1 => k (m + 1)

/-- Embeds `HashToG1::sgn0` for `AffineG1` from `src/g1.rs`: the last byte of
the canonical big-endian encoding, masked with 1, i.e. the parity of the
canonical representative. -/
def sgn0G1 (x : Nat) : Nat := x % 256 &&& 1

/-- Embeds `HashToCurve::sgn0` for `AffineG2` from `src/g2.rs`.  Note that the
zero test of the real part is `(t.0[0] as u64) == 0`: it truncates the low
128-bit limb of the canonical value to 64 bits, so only the low 64 bits are
compared with zero. -/
def sgn0G2 (v : Fq2) : Nat :=
  let sgn := 0
  let zro := 1
  let signR := (if v.1.testBit 0 then 1 else 0) &&& 1
  let zeroR := if v.1 % 2 ^ 64 = 0 then 1 else 0
  let sgn1 := sgn ||| (zro &&& signR)
  let zro1 := zro &&& zeroR
  let signI := (v.2 % 2 ^ 64) &&& 1
  sgn1 ||| (zro1 &&& signI)

/-- G1 SVDW constant `c2` from `src/g1.rs`, written with the source's
`U256([lo, hi])` limbs. -/
def g1C2 : Nat := 32161882306591588520931028742613019694 * 2 ^ 128 + 270833881017518655421856604104928689827

/-- G1 SVDW constant `c3` from `src/g1.rs`. -/
def g1C3 : Nat := 25907430997271654067 * 2 ^ 128 + 111372491445993142249323874245484216314

/-- G1 SVDW constant `c4` from `src/g1.rs`. -/
def g1C4 : Nat := 21441254871061059013954019161742013129 * 2 ^ 128 + 293983376318658591435695938547208530365

/-- `tv1 = u * u * c1` of the G1 SVDW map (`c1 = 4`). -/
def g1Tv1 (u : Nat) : Nat := fqMul (fqMul u u) 4

/-- `tv2 = 1 + tv1` of the G1 SVDW map. -/
def g1Tv2 (u : Nat) : Nat := fqAdd 1 (g1Tv1 u)

/-- The reassigned `tv1 = 1 - tv1` of the G1 SVDW map. -/
def g1Tv1b (u : Nat) : Nat := fqSub 1 (g1Tv1 u)

/-- The product `tv1 * tv2` whose inverse is taken (`tv3` before inversion). -/
def g1Den (u : Nat) : Nat := fqMul (g1Tv1b u) (g1Tv2 u)

/-- `tv3 = inverse(tv1 * tv2)` of the G1 SVDW map. -/
def g1Tv3 (u : Nat) : Nat := fqInv0 (g1Den u)

/-- `tv4 = u * tv1 * tv3 * c3` of the G1 SVDW map. -/
def g1Tv4 (u : Nat) : Nat := fqMul (fqMul (fqMul u (g1Tv1b u)) (g1Tv3 u)) g1C3

/-- `x1 = c2 - tv4`. -/
def g1X1 (u : Nat) : Nat := fqSub g1C2 (g1Tv4 u)

/-- `gx1 = x1^3 + 3` (the curve has `A = 0`, `B = 3`). -/
def g1Gx1 (u : Nat) : Nat := fqAdd (fqMul (fqMul (g1X1 u) (g1X1 u)) (g1X1 u)) 3

/-- `x2 = c2 + tv4`. -/
def g1X2 (u : Nat) : Nat := fqAdd g1C2 (g1Tv4 u)

/-- `gx2 = x2^3 + 3`. -/
def g1Gx2 (u : Nat) : Nat := fqAdd (fqMul (fqMul (g1X2 u) (g1X2 u)) (g1X2 u)) 3

/-- `x3 = (tv2^2 * tv3)^2 * c4 + Z` with `Z = 1`. -/
def g1X3 (u : Nat) : Nat :=
  let t := fqMul (fqMul (g1Tv2 u) (g1Tv2 u)) (g1Tv3 u)
  fqAdd (fqMul (fqMul t t) g1C4) 1

/-- Steps 29–33 of the G1 SVDW map: from the selected `x`, compute
`gx = x^3 + 3`, `y = sqrt(gx)` (`unwrap` panic modelled by `none`), flip the
sign of `y` when `sgn0(u) ≠ sgn0(y)`, and perform the curve-equation check
of `AffineG1::new` (the constructor then pairs the given `x` with this `y`). -/
def g1FinishY (u x : Nat) : Option Nat :=
  let gx := fqAdd (fqMul (fqMul x x) x) 3
  match fqSqrt gx with
  | none => none
  | some y0 =>
      let y := if sgn0G1 u ^^^ sgn0G1 y0 ≠ 0 then fqNeg y0 else y0
      if fqMul y y = fqAdd (fqMul (fqMul x x) x) 3 then some y else none

/-- Embeds `HashToG1::map_to_curve` for `AffineG1` from `src/g1.rs`.
`none` models the two possible panics (`tv3.inverse().unwrap()` on a zero
denominator and `gx.sqrt().unwrap()` on a non-square) and a curve-membership
failure of `AffineG1::new`.  The two-step conditional selection mirrors
lines 146–149 of the source (`x = x1` if `gx1` is square else `x3`; then
`x = x2` if `gx2` is square and `gx1` is not). -/
def mapToCurveG1 (u : Nat) : Option (Nat × Nat) :=
  if g1Den u = 0 then none
  else
    let x0 := if (fqSqrt (g1Gx1 u)).isSome then g1X1 u else g1X3 u
    let x := if (fqSqrt (g1Gx2 u)).isSome ∧ ¬(fqSqrt (g1Gx1 u)).isSome then g1X2 u else x0
    (g1FinishY u x).map fun y => (x, y)

/-- G2 SVDW constant `Z` from `src/g2.rs`. -/
def g2Z : Fq2 := (6350874878119819312338956282401532409788428879151445726012394534686998597021, 0)

/-- G2 SVDW constant `c1` from `src/g2.rs`. -/
def g2C1 : Fq2 :=
  (1234912246041461878588942434875861039904126177810565185887158306408069993214,
   568440292453150825972223760836185707764922522371208948902804025364325400423)

/-- G2 SVDW constant `c2` from `src/g2.rs`. -/
def g2C2 : Fq2 := (7768683996859727954953724731427871339453941139073188968338321679979113805781, 0)

/-- G2 SVDW constant `c3` from `src/g2.rs`. -/
def g2C3 : Fq2 :=
  (14301738157933195389348253840724448307870907218086206201704502222609770096511,
   18766576807588938823931941816656094168356257905513364070341807858523241306211)

/-- G2 SVDW constant `c4` from `src/g2.rs`. -/
def g2C4 : Fq2 :=
  (12945612253170900976712347250337035339258705867784462193943147521219390814770,
   21130322481901740787616774064142360811676414460802878397485299194159459008019)

/-- The twisted curve coefficient `B` from `src/g2.rs`. -/
def g2B : Fq2 :=
  (19485874751759354771024239261021720505790618469301721065564631296452457478373,
   266929791119991161246907387137283842545076965332900288569378510910307636690)

/-- `tv1 = u * u * c1` of the G2 SVDW map. -/
def g2Tv1 (u : Fq2) : Fq2 := fq2Mul (fq2Mul u u) g2C1

/-- `tv2 = 1 + tv1` of the G2 SVDW map. -/
def g2Tv2 (u : Fq2) : Fq2 := fq2Add (1, 0) (g2Tv1 u)

/-- The reassigned `tv1 = 1 - tv1` of the G2 SVDW map. -/
def g2Tv1b (u : Fq2) : Fq2 := fq2Sub (1, 0) (g2Tv1 u)

/-- The product `tv1 * tv2` that is inverted (`inv0`) by the G2 SVDW map. -/
def g2Den (u : Fq2) : Fq2 := fq2Mul (g2Tv1b u) (g2Tv2 u)

/-- `tv3 = 1 / (tv1 * tv2)` of the G2 SVDW map. -/
def g2Tv3 (u : Fq2) : Fq2 := fq2Inv0 (g2Den u)

/-- `tv4 = u * tv1 * tv3 * c3` of the G2 SVDW map. -/
def g2Tv4 (u : Fq2) : Fq2 := fq2Mul (fq2Mul (fq2Mul u (g2Tv1b u)) (g2Tv3 u)) g2C3

/-- `x1 = c2 - tv4`. -/
def g2X1 (u : Fq2) : Fq2 := fq2Sub g2C2 (g2Tv4 u)

/-- `gx1 = x1^3 + B`. -/
def g2Gx1 (u : Fq2) : Fq2 := fq2Add (fq2Mul (fq2Mul (g2X1 u) (g2X1 u)) (g2X1 u)) g2B

/-- `x2 = c2 + tv4`. -/
def g2X2 (u : Fq2) : Fq2 := fq2Add g2C2 (g2Tv4 u)

/-- `gx2 = x2^3 + B`. -/
def g2Gx2 (u : Fq2) : Fq2 := fq2Add (fq2Mul (fq2Mul (g2X2 u) (g2X2 u)) (g2X2 u)) g2B

/-- `x3 = (tv2^2 * tv3)^2 * c4 + Z`. -/
def g2X3 (u : Fq2) : Fq2 :=
  let t := fq2Mul (fq2Mul (g2Tv2 u) (g2Tv2 u)) (g2Tv3 u)
  fq2Add (fq2Mul (fq2Mul t t) g2C4) g2Z

/-- Steps 27–33 of the G2 SVDW map: from the selected `x`, compute
`gx = x^3 + B`, `y = sqrt(gx)`, flip the sign of `y` when
`sgn0(u) ≠ sgn0(y)`, and perform the curve-equation check of `AffineG2::new`
(the constructor then pairs the given `x` with this `y`). -/
def g2FinishY (u x : Fq2) : Option Fq2 :=
  let gx := fq2Add (fq2Mul (fq2Mul x x) x) g2B
  match fq2Sqrt gx with
  | none => none
  | some y0 =>
      let y := if sgn0G2 u ^^^ sgn0G2 y0 ≠ 0 then fq2Neg y0 else y0
      if fq2Mul y y = fq2Add (fq2Mul (fq2Mul x x) x) g2B then some y else none

/-- Embeds `HashToCurve::map_to_curve` for `AffineG2` from `src/g2.rs`;
`none` models the division/`unwrap` panics and a curve-membership failure of
`AffineG2::new`.  The two-step conditional selection mirrors lines 154–155
of the source. -/
def mapToCurveG2 (u : Fq2) : Option (Fq2 × Fq2) :=
  if g2Den u = ((0 : Nat), (0 : Nat)) then none
  else
    let x0 := if (fq2Sqrt (g2Gx1 u)).isSome then g2X1 u else g2X3 u
    let x := if (fq2Sqrt (g2Gx2 u)).isSome ∧ ¬(fq2Sqrt (g2Gx1 u)).isSome then g2X2 u else x0
    (g2FinishY u x).map fun y => (x, y)

/-- A point of the extension-field curve `y^2 = x^3 + g2B`, with `none` as
the point at infinity.  Models the library's `G2`/`AffineG2` points (the
projective representation and affine conversions of `substrate_bn` are
external collaborators; the group they implement is the chord-tangent group
law below). -/
abbrev PtG2 := Option (Fq2 × Fq2)

/-- The curve equation test for `PtG2`. -/
def g2OnCurve : PtG2 → Bool
  | none => true
  | some q => fq2Mul q.2 q.2 == fq2Add (fq2Mul (fq2Mul q.1 q.1) q.1) g2B

/-- Chord-tangent point addition on the extension-field curve (models the
external library's group operation). -/
def g2Add : PtG2 → PtG2 → PtG2
  | none, q => q
  | some a, none => some a
  | some a, some b =>
      if a.1 = b.1 then
        if fq2Add a.2 b.2 = ((0 : Nat), (0 : Nat)) then none
        else
          let lam := fq2Mul (fq2Mul ((3 : Nat), (0 : Nat)) (fq2Mul a.1 a.1)) (fq2Inv0 (fq2Add a.2 a.2))
          let x3 := fq2Sub (fq2Sub (fq2Mul lam lam) a.1) b.1
          let y3 := fq2Sub (fq2Mul lam (fq2Sub a.1 x3)) a.2
          natCase x3.1 fun xr => natCase x3.2 fun xi =>
          natCase y3.1 fun yr => natCase y3.2 fun yi => some ((xr, xi), (yr, yi))
      else
        let lam := fq2Mul (fq2Sub b.2 a.2) (fq2Inv0 (fq2Sub b.1 a.1))
        let x3 := fq2Sub (fq2Sub (fq2Mul lam lam) a.1) b.1
        let y3 := fq2Sub (fq2Mul lam (fq2Sub a.1 x3)) a.2
        natCase x3.1 fun xr => natCase x3.2 fun xi =>
        natCase y3.1 fun yr => natCase y3.2 fun yi => some ((xr, xi), (yr, yi))

/-- Fuel-driven double-and-add scalar multiplication on `PtG2`. -/
def g2MulF : Nat → Nat → PtG2 → PtG2 → PtG2
  | 0, _, acc, _ => acc
  | fuel + 1, n, acc, base =>
      if n = 0 then acc
      else g2MulF fuel (n / 2) (if n % 2 = 1 then g2Add acc base else acc) (g2Add base base)

/-- Scalar multiplication `n * q` on the extension-field curve. -/
def g2ScalarMul (n : Nat) (q : PtG2) : PtG2 := g2MulF 256 n none q

/-- The `x` coordinate of `G2::one()`, the fixed G2 generator of
`substrate_bn`. -/
def g2GenX : Fq2 :=
  (10857046999023057135944570762232829481370756359578518086990519993285655852781,
   11559732032986387107991004021392285783925812861821192530917403151452391805634)

/-- The `y` coordinate of `G2::one()`. -/
def g2GenY : Fq2 :=
  (8495653923123431417604973247489272438418190587263600148770280649306958101930,
   4082367875863433681332203403145435568316851327593401208105741076214120093531)

/-- The constant `endo_u` of `psi` in `src/g2.rs`. -/
def endoU : Fq2 :=
  (21575463638280843010398324269430826099269044274347216827212613867836435027261,
   10307601595873709700152284273816112264069230130616436755625194854815875713954)

/-- The constant `endo_v` of `psi` in `src/g2.rs`. -/
def endoV : Fq2 :=
  (2821565182194536844548159561693502659359617185244120367078079554186484126554,
   3505843767911556378687030309984248845540243509899259641013678093033130930403)

/-- Embeds `psi` from `src/g2.rs` faithfully.  The source converts its
argument `a` into a projective point and then never uses it: every operation
is applied to `p = G2::one()`, the fixed generator (whose `z`-coordinate `1`
is fixed by conjugation, so the final affine conversion returns the
conjugated, `endo_u`/`endo_v`-scaled generator coordinates).  The result is
therefore the same constant point for every input. -/
def psi (a : PtG2) : PtG2 :=
  let _ := a
  some (fq2Mul (fq2Conj g2GenX) endoU, fq2Mul (fq2Conj g2GenY) endoV)

/-- The BN parameter seed `X_GEN` of `clear_cofactor` in `src/g2.rs`. -/
def xGen : Nat := 4965661367192848881

/-- Embeds `clear_cofactor` from `src/g2.rs`:
`points[0] = x_gen * q`, `points[1] = psi(3 * points[0])`,
`points[2] = psi(psi(points[0]))`, `points[3] = psi(psi(psi(q)))`, summed
from `G2::zero()`. -/
def clearCofactor (q : PtG2) : PtG2 :=
  let p0 := g2ScalarMul xGen q
  let p1 := psi (g2Add (g2Add (g2Add none p0) p0) p0)
  let p2 := psi (psi p0)
  let p3 := psi (psi (psi q))
  g2Add (g2Add (g2Add (g2Add none p0) p1) p2) p3

/-- The 64-byte zero padding `Z_pad` fed first into `b_0`
(`[0u8; 64]` in `src/g1.rs`). -/
def zPad : List Nat := List.replicate 64 0

/-- The three-byte chunk `[(LEN_IN_BYTES >> 8) as u8, LEN_IN_BYTES as u8, 0u8]`
fed after the message in `src/g1.rs`. -/
def lenBytes (len : Nat) : List Nat := [(len >>> 8) % 256, len % 256, 0]

/-- The trailing `[dst.len() as u8]` chunk. -/
def dstSuffix (dst : List Nat) : List Nat := [dst.length % 256]

/-- The exact byte stream hashed for `b_0` by `expand_message_xmd`:
`Z_pad || msg || [(len >> 8), len, 0] || dst || [len(dst)]`. -/
def b0Input (msg dst : List Nat) (len : Nat) : List Nat :=
  zPad ++ msg ++ lenBytes len ++ dst ++ dstSuffix dst

/-- The `b_0` block: the hash of `b0Input`. -/
def xmdB0 (H : List Nat → List Nat) (msg dst : List Nat) (len : Nat) : List Nat :=
  H (b0Input msg dst len)

/-- The `b_1` block: `H(b_0 || 1 || dst || [len(dst)])`. -/
def xmdB1 (H : List Nat → List Nat) (msg dst : List Nat) (len : Nat) : List Nat :=
  H (xmdB0 H msg dst len ++ [1] ++ dst ++ dstSuffix dst)

/-- The 32-byte `tmp = b_0 XOR b_vals` buffer of the expansion loop: the
source zips the two blocks into a zero-initialised 32-byte array. -/
def xorBlock (b0 bv : List Nat) : List Nat :=
  (List.range 32).map fun j =>
    if j < min b0.length bv.length then b0.getD j 0 ^^^ bv.getD j 0 else 0

/-- One guarded block write of the expansion: each byte is written at the
running offset only while `offset < len` (`conditional_assign` with
`Choice::from(offset < LEN_IN_BYTES)` at index `offset % LEN_IN_BYTES`),
and the offset always advances. -/
def writeBlockGuarded (len : Nat) (st : List Nat × Nat) (block : List Nat) : List Nat × Nat :=
  block.foldl (fun s b => (if s.2 < len then s.1.set s.2 b else s.1, s.2 + 1)) st

/-- The write loop of `expand_message_xmd`: `r` remaining iterations of the
`for i in 1..ell` loop followed by the final block write.  At loop counter
`i` the current `b_vals` block is written and the next block
`H((b_0 XOR b_vals) || (i+1) || dst || [len(dst)])` is derived. -/
def xmdRounds (H : List Nat → List Nat) (b0 dst : List Nat) (len : Nat) :
    Nat → Nat → List Nat → List Nat × Nat → List Nat
  | 0, _, bv, st => (writeBlockGuarded len st bv).1
  | r + 1, i, bv, st =>
      xmdRounds H b0 dst len r (i + 1)
        (H (xorBlock b0 bv ++ [(i + 1) % 256] ++ dst ++ dstSuffix dst))
        (writeBlockGuarded len st bv)

/-- The sequence of blocks `b_1, b_2, ..., b_(r+1)` written by `xmdRounds`
starting at loop counter `i` with current block `bv`. -/
def blockChain (H : List Nat → List Nat) (b0 dst : List Nat) :
    Nat → Nat → List Nat → List (List Nat)
  | 0, _, bv => [bv]
  | r + 1, i, bv =>
      bv :: blockChain H b0 dst r (i + 1)
        (H (xorBlock b0 bv ++ [(i + 1) % 256] ++ dst ++ dstSuffix dst))

/-- The full block list `b_1 .. b_ell` of an expansion of `len` bytes. -/
def xmdBlocks (H : List Nat → List Nat) (msg dst : List Nat) (len : Nat) : List (List Nat) :=
  blockChain H (xmdB0 H msg dst len) dst ((len + 32 - 1) / 32 - 1) 1 (xmdB1 H msg dst len)

/-- Embeds `expand_message_xmd` from `src/g1.rs`, parameterized over the
hash function `H` (the `sha2` crate is an external collaborator; `sha256`
below is a concrete executable instance).  `none` models the two `assert!`
input-size panics and the `offset % 0` remainder-by-zero panic that the
buffer write raises when `LEN_IN_BYTES = 0`. -/
def expandMessageXmd (H : List Nat → List Nat) (msg dst : List Nat) (len : Nat) : Option (List Nat) :=
  let ell := (len + 32 - 1) / 32
  if 255 < ell then none
  else if 255 < dst.length then none
  else
    let b0 := xmdB0 H msg dst len
    let b1 := xmdB1 H msg dst len
    if len = 0 then none
    else some (xmdRounds H b0 dst len (ell - 1) 1 b1 (List.replicate len 0, 0))

/-- Big-endian interpretation of a byte string as a natural number. -/
def fromBeBytes (l : List Nat) : Nat := l.foldl (fun a b => a * 256 + b) 0

/-- Embeds `hash_to_field` from `src/g1.rs`: expand to `count * 48` bytes,
then reduce each consecutive 48-byte slice big-endian modulo the field prime
(`Fq::from_be_bytes_mod_order`, an external-library operation modelled by
its contract). -/
def hashToField (H : List Nat → List Nat) (msg dst : List Nat) (count : Nat) : Option (List Nat) :=
  match expandMessageXmd H msg dst (count * 48) with
  | none => none
  | some ub => some ((List.range count).map fun i => fromBeBytes ((ub.drop (i * 48)).take 48) % bnP)

/-- Embeds `HashToCurve::hash` for `AffineG2` from `src/g2.rs`: derive four
base-field elements, pair them into two `Fq2` values, map both, sum from
`G2::zero()`, and clear the cofactor. -/
def hashG2 (H : List Nat → List Nat) (msg dst : List Nat) : Option PtG2 :=
  match hashToField H msg dst 4 with
  | some [u0, u1, u2, u3] =>
      match mapToCurveG2 (u0, u1), mapToCurveG2 (u2, u3) with
      | some q0, some q1 => some (clearCofactor (g2Add (g2Add none (some q0)) (some q1)))
      | _, _ => none
  | _ => none

/-- A simple 32-byte-output stub hash used to instantiate the hash parameter
`H` in witnesses and counterexamples (any function with 32-byte output
satisfies the shape contract of the `sha2` collaborator). -/
def stubH (s : List Nat) : List Nat :=
  List.replicate 32 ((s.foldl (fun a b => a + b) 0 + s.length) % 256)

/-- The `b_0` input stream as the specification describes it (refinement
comparison definition, following the spec's words): `Z_pad || message ||
I2OSP(length, 2) || dst || I2OSP(len(dst), 1)`, with no byte between
`I2OSP(length, 2)` and `dst`. -/
def b0InputClaimed (msg dst : List Nat) (len : Nat) : List Nat :=
  zPad ++ msg ++ [(len >>> 8) % 256, len % 256] ++ dst ++ dstSuffix dst

/-- The bytes of the message `"abc"` from the repository's test vectors. -/
def msgAbc : List Nat := [97, 98, 99]

/-- The bytes of the G1 domain separation tag
`QUUX-V01-CS02-with-BN254G1_XMD:SHA-256_SVDW_RO_` used by the repository's
tests and by `commit`. -/
def dstG1Bytes : List Nat :=
  [81, 85, 85, 88, 45, 86, 48, 49, 45, 67, 83, 48, 50, 45, 119, 105, 116, 104, 45, 66, 78, 50,
   53, 52, 71, 49, 95, 88, 77, 68, 58, 83, 72, 65, 45, 50, 53, 54, 95, 83, 86, 68, 87, 95, 82,
   79, 95]

/-- The bytes of the G2 domain separation tag
`QUUX-V01-CS02-with-BN254G2_XMD:SHA-256_SVDW_RO_`. -/
def dstG2Bytes : List Nat :=
  [81, 85, 85, 88, 45, 86, 48, 49, 45, 67, 83, 48, 50, 45, 119, 105, 116, 104, 45, 66, 78, 50,
   53, 52, 71, 50, 95, 88, 77, 68, 58, 83, 72, 65, 45, 50, 53, 54, 95, 83, 86, 68, 87, 95, 82,
   79, 95]

/-- The point produced by the embedded `AffineG2::hash` on message `"abc"`
with the G2 DST (computed by evaluation; certified by `hashG2_abc_not_annihilated`). -/
def hAbcPt : PtG2 :=
  some ((1739080664234013591222616984508796182184515469361602916516505828009222175084,
         18980062261305851516589703709419660460788551258948839823175226871073754998827),
        (20475603183511415249341198589462965043312675294660612868238249944256420575265,
         13388118260319081843765404406400115278127871449247298913523519554283504634431))

/-- `bnR` times `hAbcPt` in the embedded group (computed by evaluation): a
finite point, witnessing that `hAbcPt` is not annihilated by the prime group
order. -/
def rHAbcPt : PtG2 :=
  some ((58960383295558145803591279846168334259671912385324659117520346172050605051,
         2805193964541132222954910918576869123152089459882395728241111174329403565106),
        (17222726602192614885462975555320705234796621427593326166524250925879096108171,
         20426786251383331906638819983784764174405261638598899604865656947803111085924))

/-- The SHA-256 round constants. -/
def shaK : List Nat :=
  [1116352408, 1899447441, 3049323471, 3921009573, 961987163, 1508970993, 2453635748, 2870763221,
   3624381080, 310598401, 607225278, 1426881987, 1925078388, 2162078206, 2614888103, 3248222580,
   3835390401, 4022224774, 264347078, 604807628, 770255983, 1249150122, 1555081692, 1996064986,
   2554220882, 2821834349, 2952996808, 3210313671, 3336571891, 3584528711, 113926993, 338241895,
   666307205, 773529912, 1294757372, 1396182291, 1695183700, 1986661051, 2177026350, 2456956037,
   2730485921, 2820302411, 3259730800, 3345764771, 3516065817, 3600352804, 4094571909, 275423344,
   430227734, 506948616, 659060556, 883997877, 958139571, 1322822218, 1537002063, 1747873779,
   1955562222, 2024104815, 2227730452, 2361852424, 2428436474, 2756734187, 3204031479, 3329325298]

/-- The SHA-256 initial state. -/
def shaInit : List Nat :=
  [1779033703, 3144134277, 1013904242, 2773480762, 1359893119, 2600822924, 528734635, 1541459225]

/-- 32-bit right rotation. -/
def rotr (n x : Nat) : Nat := ((x >>> n) ||| (x <<< (32 - n))) % 2 ^ 32

/-- SHA-256 `Ch`. -/
def shaCh (x y z : Nat) : Nat := (x &&& y) ^^^ ((x ^^^ 0xffffffff) &&& z)

/-- SHA-256 `Maj`. -/
def shaMaj (x y z : Nat) : Nat := (x &&& y) ^^^ (x &&& z) ^^^ (y &&& z)

/-- SHA-256 `Σ0`. -/
def shaBigS0 (x : Nat) : Nat := rotr 2 x ^^^ rotr 13 x ^^^ rotr 22 x

/-- SHA-256 `Σ1`. -/
def shaBigS1 (x : Nat) : Nat := rotr 6 x ^^^ rotr 11 x ^^^ rotr 25 x

/-- SHA-256 `σ0`. -/
def shaSmallS0 (x : Nat) : Nat := rotr 7 x ^^^ rotr 18 x ^^^ (x >>> 3)

/-- SHA-256 `σ1`. -/
def shaSmallS1 (x : Nat) : Nat := rotr 17 x ^^^ rotr 19 x ^^^ (x >>> 10)

/-- Message-schedule extension: prepend `fuel` further words
`w[t] = s1(w[t-2]) + w[t-7] + s0(w[t-15]) + w[t-16]` to the reversed
(most-recent-first) word list. -/
def shaSchedF : Nat → List Nat → List Nat
  | 0, rev => rev.reverse
  | fuel + 1, rev =>
      natCase ((shaSmallS1 (rev.getD 1 0) + rev.getD 6 0 +
          shaSmallS0 (rev.getD 14 0) + rev.getD 15 0) % 2 ^ 32)
        fun w => shaSchedF fuel (w :: rev)

/-- The 64-word message schedule of a block. -/
def shaSched (ws : List Nat) : List Nat := shaSchedF 48 ws.reverse

/-- One SHA-256 round on the 8-word working state. -/
def shaRound (st : List Nat) (kw : Nat × Nat) : List Nat :=
  let a := st.getD 0 0
  let b := st.getD 1 0
  let c := st.getD 2 0
  let d := st.getD 3 0
  let e := st.getD 4 0
  let f := st.getD 5 0
  let g := st.getD 6 0
  let h := st.getD 7 0
  natCase ((h + shaBigS1 e + shaCh e f g + kw.1 + kw.2) % 2 ^ 32) fun t1 =>
  natCase ((shaBigS0 a + shaMaj a b c) % 2 ^ 32) fun t2 =>
  [(t1 + t2) % 2 ^ 32, a, b, c, (d + t1) % 2 ^ 32, e, f, g]

/-- Big-endian 4-byte groups into 32-bit words (`fuel` groups). -/
def toWordsF : Nat → List Nat → List Nat
  | 0, _ => []
  | fuel + 1, b0 :: b1 :: b2 :: b3 :: rest =>
      (((b0 * 256 + b1) * 256 + b2) * 256 + b3) :: toWordsF fuel rest
  | _ + 1, _ => []

/-- One SHA-256 compression of a 64-byte block into the 8-word state. -/
def shaCompress (st : List Nat) (block : List Nat) : List Nat :=
  let ws := shaSched (toWordsF 16 block)
  let t := (shaK.zip ws).foldl shaRound st
  [(st.getD 0 0 + t.getD 0 0) % 2 ^ 32, (st.getD 1 0 + t.getD 1 0) % 2 ^ 32,
   (st.getD 2 0 + t.getD 2 0) % 2 ^ 32, (st.getD 3 0 + t.getD 3 0) % 2 ^ 32,
   (st.getD 4 0 + t.getD 4 0) % 2 ^ 32, (st.getD 5 0 + t.getD 5 0) % 2 ^ 32,
   (st.getD 6 0 + t.getD 6 0) % 2 ^ 32, (st.getD 7 0 + t.getD 7 0) % 2 ^ 32]

/-- Big-endian 8-byte encoding of a 64-bit length. -/
def beBytes8 (n : Nat) : List Nat :=
  [(n >>> 56) % 256, (n >>> 48) % 256, (n >>> 40) % 256, (n >>> 32) % 256,
   (n >>> 24) % 256, (n >>> 16) % 256, (n >>> 8) % 256, n % 256]

/-- SHA-256 padding: `0x80`, zeros to 56 mod 64, and the bit length. -/
def shaPad (msg : List Nat) : List Nat :=
  msg ++ [128] ++ List.replicate ((64 - (msg.length + 9) % 64) % 64) 0 ++ beBytes8 (8 * msg.length)

/-- Split into successive 64-byte blocks (`fuel` bounds the recursion). -/
def chunks64F : Nat → List Nat → List (List Nat)
  | 0, _ => []
  | fuel + 1, l => if l.isEmpty then [] else l.take 64 :: chunks64F fuel (l.drop 64)

/-- Executable SHA-256 over byte lists: the concrete instance of the hash
parameter `H` (models the `sha2` crate). -/
def sha256 (msg : List Nat) : List Nat :=
  let padded := shaPad msg
  let st := (chunks64F padded.length padded).foldl shaCompress shaInit
  (st.map fun w => [(w >>> 24) % 256, (w >>> 16) % 256, (w >>> 8) % 256, w % 256]).flatten

/-- Embeds `commit` from `src/lib.rs` over an arbitrary commutative group of
points `P` with scalars `R` (the curve group and `Fr` arithmetic are
external collaborators): fold `acc + hash(i) * v` over the enumerated values
starting from `G * r`, where `hash` abstracts
`AffineG1::hash(&i.to_le_bytes(), dst)` as a function of the index. -/
def commit {P : Type} [AddCommGroup P] {R : Type} [Ring R] [Module R P]
    (hashPt : Nat → P) (vs : List R) (G : P) (r : R) : P :=
  (vs.enum).foldl (fun acc iv => acc + iv.2 • hashPt iv.1) (r • G)

theorem writeBlockGuarded_eq (len : Nat) :
    ∀ (block buf : List Nat) (off : Nat), buf.length = len →
      writeBlockGuarded len (buf, off) block =
        (buf.take off ++ block.take (len - off) ++ buf.drop (off + block.length),
         off + block.length) := by
  intro block
  induction block with
  | nil =>
      intro buf off h
      simp [writeBlockGuarded, List.take_append_drop]
  | cons b bs ih =>
      intro buf off h
      have step : writeBlockGuarded len (buf, off) (b :: bs) =
          writeBlockGuarded len ((if off < len then buf.set off b else buf), off + 1) bs := rfl
      rw [step]
      by_cases ho : off < len
      · have hlt : off < buf.length := by omega
        rw [if_pos ho]
        rw [ih (buf.set off b) (off + 1) (by simp [List.length_set, h])]
        have hset : buf.set off b = buf.take off ++ b :: buf.drop (off + 1) := by
          rw [List.set_eq_take_append_cons_drop, if_pos hlt]
        have hlenA : (buf.take off).length = off := by
          simp [List.length_take]
          omega
        have htake : (buf.set off b).take (off + 1) = buf.take off ++ [b] := by
          rw [hset, List.take_append_eq_append_take, hlenA]
          have e1 : off + 1 - off = 1 := by omega
          rw [e1]
          have e2 : (buf.take off).take (off + 1) = buf.take off :=
            List.take_of_length_le (by rw [hlenA]; omega)
          rw [e2, List.take_succ_cons, List.take_zero]
        have hdrop : (buf.set off b).drop (off + 1 + bs.length) = buf.drop (off + (bs.length + 1)) := by
          rw [hset, List.drop_append_eq_append_drop, hlenA]
          have e1 : off + 1 + bs.length - off = bs.length + 1 := by omega
          rw [e1, List.drop_eq_nil_of_le (by rw [hlenA]; omega)]
          simp only [List.nil_append, List.drop_succ_cons, List.drop_drop]
          congr 1
          omega
        have htk : (b :: bs).take (len - off) = b :: bs.take (len - (off + 1)) := by
          have e1 : len - off = (len - (off + 1)) + 1 := by omega
          rw [e1, List.take_succ_cons]
        rw [htake, hdrop, htk]
        simp only [Prod.mk.injEq, List.length_cons]
        constructor
        · simp [List.append_assoc]
        · omega
      · rw [if_neg ho]
        rw [ih buf (off + 1) h]
        have h1 : buf.take (off + 1) = buf := List.take_of_length_le (by omega)
        have h2 : buf.take off = buf := List.take_of_length_le (by omega)
        have h3 : bs.take (len - (off + 1)) = bs.take 0 := by congr 1; omega
        have h4 : (b :: bs).take (len - off) = (b :: bs).take 0 := by congr 1; omega
        have h5 : buf.drop (off + 1 + bs.length) = [] := List.drop_eq_nil_of_le (by omega)
        have h6 : buf.drop (off + (b :: bs).length) = [] := List.drop_eq_nil_of_le (by simp; omega)
        rw [h1, h2, h3, h4, h5, h6]
        simp only [Prod.mk.injEq, List.take_zero, List.append_nil, List.length_cons]
        constructor
        · simp
        · omega

theorem foldl_writeBlockGuarded_eq (len : Nat) :
    ∀ (blocks : List (List Nat)) (buf : List Nat) (off : Nat), buf.length = len →
      blocks.foldl (writeBlockGuarded len) (buf, off) =
        (buf.take off ++ blocks.flatten.take (len - off) ++ buf.drop (off + blocks.flatten.length),
         off + blocks.flatten.length) := by
  intro blocks
  induction blocks with
  | nil =>
      intro buf off h
      simp [List.take_append_drop]
  | cons blk rest ih =>
      intro buf off h
      rw [List.foldl_cons, writeBlockGuarded_eq len blk buf off h]
      have hlen' : (buf.take off ++ blk.take (len - off) ++ buf.drop (off + blk.length)).length = len := by
        simp only [List.length_append, List.length_take, List.length_drop, h]
        rcases Nat.le_total off len with hol | hol
        · rcases Nat.le_total blk.length (len - off) with hbl | hbl
          · rw [Nat.min_eq_left hol, Nat.min_eq_right hbl]
            omega
          · rw [Nat.min_eq_left hol, Nat.min_eq_left hbl]
            omega
        · rw [Nat.min_eq_right hol]
          have e0 : len - off = 0 := by omega
          rw [e0]
          simp only [Nat.zero_min]
          omega
      rw [ih _ _ hlen']
      simp only [List.flatten_cons, Prod.mk.injEq, List.length_append]
      rcases Nat.le_total off len with hol | hol
      · have hA : (buf.take off).length = off := by
          simp only [List.length_take, h]
          exact Nat.min_eq_left hol
        rcases Nat.le_total blk.length (len - off) with hbl | hbl
        · -- the block fits entirely below len
          have hB : blk.take (len - off) = blk := List.take_of_length_le hbl
          have hAB : (buf.take off ++ blk).length = off + blk.length := by
            simp [List.length_append, hA]
          have htake : (buf.take off ++ blk ++ buf.drop (off + blk.length)).take (off + blk.length)
              = buf.take off ++ blk := List.take_left' hAB
          have hdrop : (buf.take off ++ blk ++ buf.drop (off + blk.length)).drop (off + blk.length + rest.flatten.length)
              = buf.drop (off + (blk.length + rest.flatten.length)) := by
            rw [← List.drop_drop, List.drop_left' hAB, List.drop_drop]
            congr 1
            omega
          rw [hB, htake, hdrop]
          refine ⟨?_, by omega⟩
          rw [List.take_append_eq_append_take, List.take_of_length_le hbl]
          have e1 : len - off - blk.length = len - (off + blk.length) := by omega
          rw [e1]
          simp [List.append_assoc]
        · -- the buffer fills up inside this block
          have hBlen : (blk.take (len - off)).length = len - off := by
            simp only [List.length_take]
            exact Nat.min_eq_left hbl
          have hC : buf.drop (off + blk.length) = [] := List.drop_eq_nil_of_le (by omega)
          have hAB : (buf.take off ++ blk.take (len - off)).length = len := by
            simp only [List.length_append, hA, hBlen]
            omega
          have hrest : rest.flatten.take (len - (off + blk.length)) = [] := by
            have e1 : len - (off + blk.length) = 0 := by omega
            rw [e1, List.take_zero]
          rw [hC]
          rw [List.append_nil]
          have htake : (buf.take off ++ blk.take (len - off)).take (off + blk.length)
              = buf.take off ++ blk.take (len - off) :=
            List.take_of_length_le (by rw [hAB]; omega)
          have hdrop2 : (buf.take off ++ blk.take (len - off)).drop (off + blk.length + rest.flatten.length)
              = [] := List.drop_eq_nil_of_le (by rw [hAB]; omega)
          have hdrop3 : buf.drop (off + (blk.length + rest.flatten.length)) = [] :=
            List.drop_eq_nil_of_le (by omega)
          rw [htake, hrest, hdrop2, hdrop3]
          refine ⟨?_, by omega⟩
          simp only [List.append_nil]
          rw [List.take_append_eq_append_take]
          have e1 : len - off - blk.length = 0 := by omega
          rw [e1, List.take_zero, List.append_nil]
      · -- the offset is already at or past the end: nothing more is written
        have hA : buf.take off = buf := List.take_of_length_le (by omega)
        have e0 : len - off = 0 := by omega
        have hB : blk.take (len - off) = [] := by rw [e0, List.take_zero]
        have hC : buf.drop (off + blk.length) = [] := List.drop_eq_nil_of_le (by omega)
        have hBR : (blk ++ rest.flatten).take (len - off) = [] := by
          rw [e0, List.take_zero]
        rw [hA, hB, hC, hBR]
        simp only [List.append_nil]
        have htake : buf.take (off + blk.length) = buf := List.take_of_length_le (by omega)
        have hrest : rest.flatten.take (len - (off + blk.length)) = [] := by
          have e1 : len - (off + blk.length) = 0 := by omega
          rw [e1, List.take_zero]
        have hdrop2 : buf.drop (off + blk.length + rest.flatten.length) = [] :=
          List.drop_eq_nil_of_le (by omega)
        have hdrop3 : buf.drop (off + (blk.length + rest.flatten.length)) = [] :=
          List.drop_eq_nil_of_le (by omega)
        rw [htake, hrest, hdrop2, hdrop3]
        refine ⟨by simp, by omega⟩

theorem xmdRounds_eq_foldl (H : List Nat → List Nat) (b0 dst : List Nat) (len : Nat) :
    ∀ (r i : Nat) (bv : List Nat) (st : List Nat × Nat),
      xmdRounds H b0 dst len r i bv st =
        ((blockChain H b0 dst r i bv).foldl (writeBlockGuarded len) st).1 := by
  intro r
  induction r with
  | zero =>
      intro i bv st
      simp [xmdRounds, blockChain]
  | succ r ih =>
      intro i bv st
      rw [show xmdRounds H b0 dst len (r + 1) i bv st =
        xmdRounds H b0 dst len r (i + 1)
          (H (xorBlock b0 bv ++ [(i + 1) % 256] ++ dst ++ dstSuffix dst))
          (writeBlockGuarded len st bv) from rfl]
      rw [ih]
      rfl

theorem blockChain_flatten_length (H : List Nat → List Nat) (b0 dst : List Nat)
    (hH : ∀ s, (H s).length = 32) :
    ∀ (r i : Nat) (bv : List Nat), bv.length = 32 →
      ((blockChain H b0 dst r i bv).flatten).length = 32 * (r + 1) := by
  intro r
  induction r with
  | zero =>
      intro i bv hbv
      simp [blockChain, hbv]
  | succ r ih =>
      intro i bv hbv
      rw [show blockChain H b0 dst (r + 1) i bv =
        bv :: blockChain H b0 dst r (i + 1)
          (H (xorBlock b0 bv ++ [(i + 1) % 256] ++ dst ++ dstSuffix dst)) from rfl]
      rw [List.flatten_cons, List.length_append, hbv, ih _ _ (hH _)]
      omega

theorem expandMessageXmd_eq_take (H : List Nat → List Nat) (msg dst : List Nat) (len : Nat)
    (hH : ∀ s, (H s).length = 32)
    (h1 : (len + 32 - 1) / 32 ≤ 255) (h2 : dst.length ≤ 255) (h3 : len ≠ 0) :
    expandMessageXmd H msg dst len = some (((xmdBlocks H msg dst len).flatten).take len) := by
  rw [expandMessageXmd]
  rw [if_neg (by omega), if_neg (by omega), if_neg h3]
  congr 1
  rw [xmdRounds_eq_foldl]
  rw [foldl_writeBlockGuarded_eq len _ _ _ (by simp [List.length_replicate])]
  rw [show blockChain H (xmdB0 H msg dst len) dst ((len + 32 - 1) / 32 - 1) 1 (xmdB1 H msg dst len)
        = xmdBlocks H msg dst len from rfl]
  have hfl : ((xmdBlocks H msg dst len).flatten).length = 32 * ((len + 32 - 1) / 32 - 1 + 1) :=
    blockChain_flatten_length H _ dst hH _ 1 _ (hH _)
  rw [List.take_zero, List.nil_append, Nat.zero_add]
  rw [List.drop_eq_nil_of_le (by rw [List.length_replicate, hfl]; omega)]
  rw [List.append_nil]
  simp

theorem xmdBlocks_flatten_length (H : List Nat → List Nat) (msg dst : List Nat) (len : Nat)
    (hH : ∀ s, (H s).length = 32) :
    ((xmdBlocks H msg dst len).flatten).length = 32 * ((len + 32 - 1) / 32 - 1 + 1) :=
  blockChain_flatten_length H _ dst hH _ 1 _ (hH _)

theorem expandMessageXmd_none_of_guard (H : List Nat → List Nat) (msg dst : List Nat) (len : Nat)
    (h : 255 < (len + 32 - 1) / 32 ∨ 255 < dst.length ∨ len = 0) :
    expandMessageXmd H msg dst len = none := by
  rw [expandMessageXmd]
  rcases Nat.lt_or_ge 255 ((len + 32 - 1) / 32) with c1 | c1
  · rw [if_pos c1]
  · rw [if_neg (by omega)]
    rcases Nat.lt_or_ge 255 dst.length with c2 | c2
    · rw [if_pos c2]
    · have h0 : len = 0 := by
        rcases h with h | h | h
        · omega
        · omega
        · exact h
      rw [if_neg (by omega), h0]
      rfl

theorem expandMessageXmd_none_iff (H : List Nat → List Nat) (msg dst : List Nat) (len : Nat)
    (hH : ∀ s, (H s).length = 32) :
    expandMessageXmd H msg dst len = none ↔
      255 < (len + 32 - 1) / 32 ∨ 255 < dst.length ∨ len = 0 := by
  constructor
  · intro hnone
    by_contra hc
    push_neg at hc
    obtain ⟨hc1, hc2, hc3⟩ := hc
    rw [expandMessageXmd_eq_take H msg dst len hH (by omega) (by omega) hc3] at hnone
    cases hnone
  · exact expandMessageXmd_none_of_guard H msg dst len

theorem expandMessageXmd_some_parts (H : List Nat → List Nat) (msg dst : List Nat) (len : Nat)
    (out : List Nat) (hH : ∀ s, (H s).length = 32)
    (hout : expandMessageXmd H msg dst len = some out) :
    out = ((xmdBlocks H msg dst len).flatten).take len ∧ out.length = len := by
  have hguard : ¬ (255 < (len + 32 - 1) / 32 ∨ 255 < dst.length ∨ len = 0) := by
    intro hg
    rw [expandMessageXmd_none_of_guard H msg dst len hg] at hout
    cases hout
  push_neg at hguard
  obtain ⟨hc1, hc2, hc3⟩ := hguard
  rw [expandMessageXmd_eq_take H msg dst len hH (by omega) (by omega) hc3] at hout
  have hval := Option.some.inj hout
  have hfl := xmdBlocks_flatten_length H msg dst len hH
  constructor
  · exact hval.symm
  · rw [← hval, List.length_take, hfl]
    have : (len + 32 - 1) / 32 - 1 + 1 = (len + 32 - 1) / 32 := by omega
    rw [this]
    have : len ≤ 32 * ((len + 32 - 1) / 32) := by omega
    omega

theorem foldl_shaCompress_length :
    ∀ (blocks : List (List Nat)) (init : List Nat), init.length = 8 →
      (blocks.foldl shaCompress init).length = 8 := by
  intro blocks
  induction blocks with
  | nil => intro init h; simpa using h
  | cons b bs ih =>
      intro init h
      rw [List.foldl_cons]
      exact ih (shaCompress init b) (by rfl)

theorem sha256_length (s : List Nat) : (sha256 s).length = 32 := by
  have hmap : ∀ (st : List Nat),
      ((st.map fun w => [(w >>> 24) % 256, (w >>> 16) % 256, (w >>> 8) % 256, w % 256]).flatten).length
        = 4 * st.length := by
    intro st
    induction st with
    | nil => simp
    | cons w ws ih =>
        rw [List.map_cons, List.flatten_cons, List.length_append, ih]
        simp only [List.length_cons, List.length_nil]
        omega
  rw [sha256]
  rw [hmap]
  rw [foldl_shaCompress_length _ shaInit (by rfl)]

theorem stubH_length (s : List Nat) : (stubH s).length = 32 := by
  simp [stubH]

/-- C3 counterexample: the claimed `b_0` stream (no byte between
`I2OSP(length, 2)` and `dst`) differs from the stream the code actually
hashes, already at `msg = []`, `dst = []`, `length = 32`: the code inserts
the block-index byte `0x00`. -/
theorem b0Input_claim_false : b0Input [] [] 32 ≠ b0InputClaimed [] [] 32 := by
  decide

/-- C3 (amended): `b_0` is the hash of
`Z_pad || message || I2OSP(length, 2) || 0x00 || dst || I2OSP(len(dst), 1)`
where `Z_pad` is exactly 64 zero bytes; a single zero byte (the RFC's block
index `I2OSP(0, 1)`) sits between `I2OSP(length, 2)` and `dst`. -/
theorem b0Input_amended :
    zPad = List.replicate 64 0 ∧
    ∀ (msg dst : List Nat) (len : Nat),
      b0Input msg dst len =
        List.replicate 64 0 ++ msg ++ [(len >>> 8) % 256, len % 256] ++ [0] ++ dst ++
          [dst.length % 256] := by
  refine ⟨rfl, ?_⟩
  intro msg dst len
  simp [b0Input, zPad, lenBytes, dstSuffix, List.append_assoc]

/-- C4 counterexample: at the valid extension-field element `(2^64, 1)` the
G2 sign function does not equal the sign bit of the (nonzero) real part: the
code's zero tie-break fires because only the low 64 bits of the real part
are compared with zero. -/
theorem sgn0G2_tiebreak_claim_false :
    2 ^ 64 < bnP ∧ (1 : Nat) < bnP ∧
      ¬ sgn0G2 (2 ^ 64, 1) = (if (2 ^ 64 : Nat) = 0 then 1 % 2 else 2 ^ 64 % 2) := by
  refine ⟨by decide, by decide, by decide⟩

/-- C4 (amended): for every extension-field element `v` (indeed for every
representative pair), `sgn0(v)` equals the parity of the real part unless
the low 64 bits of the real part's canonical value are zero, in which case
it equals the parity of the imaginary part. -/
theorem sgn0G2_low_limb (v : Fq2) :
    sgn0G2 v = if v.1 % 2 ^ 64 = 0 then v.2 % 2 else v.1 % 2 := by
  rw [sgn0G2]
  simp only [Nat.zero_or, Nat.one_and_eq_mod_two]
  by_cases hz : v.1 % 2 ^ 64 = 0
  · rw [if_pos hz, if_pos hz]
    have hm2 : v.1 % 2 = 0 := by
      have hd : (2 : Nat) ∣ 2 ^ 64 := dvd_pow_self 2 (by omega)
      rw [← Nat.mod_mod_of_dvd v.1 hd, hz]
    have hb : v.1.testBit 0 = false := by
      rw [Nat.testBit_zero]
      simp [hm2]
    rw [hb]
    simp only [Bool.false_eq_true, if_false]
    rw [Nat.and_one_is_mod, Nat.and_one_is_mod]
    have e1 : (1 : Nat) % 2 % 2 = 1 := by decide
    have : v.2 % 2 ^ 64 % 2 = v.2 % 2 := Nat.mod_mod_of_dvd v.2 (dvd_pow_self 2 (by omega))
    simp [this]
    omega
  · rw [if_neg hz, if_neg hz]
    rw [Nat.and_one_is_mod]
    rcases Nat.mod_two_eq_zero_or_one v.1 with hm | hm
    · have hb : v.1.testBit 0 = false := by
        rw [Nat.testBit_zero]
        simp [hm]
      rw [hb]
      simp [hm]
    · have hb : v.1.testBit 0 = true := by
        rw [Nat.testBit_zero]
        simp [hm]
      rw [hb]
      simp [hm]

/-- C7 (amended): for every hash with 32-byte output, every DST of at most
255 bytes and every requested length `L` with `1 ≤ L` and
`ceil(L/32) ≤ 255`, `expand_message_xmd` returns exactly `L` bytes, and when
`L` is a multiple of 32 the output is the direct concatenation
`b_1 || ... || b_ell` of the block hashes. -/
theorem expandMessageXmd_length_and_concat (H : List Nat → List Nat) (msg dst : List Nat)
    (len : Nat) (hH : ∀ s, (H s).length = 32) (h2 : dst.length ≤ 255)
    (h1 : (len + 32 - 1) / 32 ≤ 255) (h3 : 1 ≤ len) :
    ∃ out, expandMessageXmd H msg dst len = some out ∧ out.length = len ∧
      (len % 32 = 0 → out = (xmdBlocks H msg dst len).flatten) := by
  have he := expandMessageXmd_eq_take H msg dst len hH h1 h2 (by omega)
  refine ⟨_, he, (expandMessageXmd_some_parts H msg dst len _ hH he).2, ?_⟩
  intro hm
  apply List.take_of_length_le
  rw [xmdBlocks_flatten_length H msg dst len hH]
  have hell : (len + 32 - 1) / 32 - 1 + 1 = (len + 32 - 1) / 32 := by omega
  rw [hell]
  omega

/-- C7 counterexample: at requested length `0` both stated preconditions
hold, yet no byte string is returned (the write loop's `offset % 0` panics),
so the claim as stated fails at `L = 0`. -/
theorem expandMessageXmd_zero_len_claim_false :
    (∀ s, (stubH s).length = 32) ∧ ([] : List Nat).length ≤ 255 ∧
      (0 + 32 - 1) / 32 ≤ 255 ∧ ¬ ∃ out, expandMessageXmd stubH [] [] 0 = some out := by
  refine ⟨stubH_length, by simp, by decide, ?_⟩
  rintro ⟨out, hout⟩
  rw [show expandMessageXmd stubH [] [] 0 = none from rfl] at hout
  cases hout

/-- C7 witness: the amended theorem evaluated at the stub hash,
`msg = dst = []`, `L = 32`. -/
theorem expandMessageXmd_length_and_concat_witness :
    ∃ out, expandMessageXmd stubH [] [] 32 = some out ∧ out.length = 32 ∧
      (32 % 32 = 0 → out = (xmdBlocks stubH [] [] 32).flatten) :=
  expandMessageXmd_length_and_concat stubH [] [] 32 stubH_length (by simp) (by decide) (by decide)

/-- C8 (amended): `expand_message_xmd` fails exactly when the DST exceeds
255 bytes, or more than 255 hash blocks are implied, or the requested length
is `0`; and for the two size preconditions the rejection is independent of
the hash function, i.e. it happens before any hashing. -/
theorem expandMessageXmd_failure_characterization :
    (∀ (H : List Nat → List Nat) (msg dst : List Nat) (len : Nat), (∀ s, (H s).length = 32) →
        (expandMessageXmd H msg dst len = none ↔
          255 < (len + 32 - 1) / 32 ∨ 255 < dst.length ∨ len = 0)) ∧
    (∀ (H1 H2 : List Nat → List Nat) (msg dst : List Nat) (len : Nat),
        255 < (len + 32 - 1) / 32 ∨ 255 < dst.length →
        expandMessageXmd H1 msg dst len = none ∧ expandMessageXmd H2 msg dst len = none) := by
  constructor
  · exact fun H msg dst len hH => expandMessageXmd_none_iff H msg dst len hH
  · intro H1 H2 msg dst len hg
    have hg' : 255 < (len + 32 - 1) / 32 ∨ 255 < dst.length ∨ len = 0 := by
      rcases hg with hg | hg
      · exact Or.inl hg
      · exact Or.inr (Or.inl hg)
    exact ⟨expandMessageXmd_none_of_guard H1 msg dst len hg',
           expandMessageXmd_none_of_guard H2 msg dst len hg'⟩

/-- C8 counterexample: requested length `0` satisfies both stated
preconditions yet `expand_message_xmd` fails, so the two stated input-size
conditions are not the only failing inputs. -/
theorem expandMessageXmd_rejects_len_zero :
    ([] : List Nat).length ≤ 255 ∧ (0 + 32 - 1) / 32 ≤ 255 ∧
      expandMessageXmd stubH [] [] 0 = none :=
  ⟨by simp, by decide, rfl⟩

/-- C8 witness: the amended characterization evaluated at requested length
8500 (267 blocks), which is rejected. -/
theorem expandMessageXmd_failure_characterization_witness :
    expandMessageXmd stubH [] [] 8500 = none :=
  (expandMessageXmd_failure_characterization.2 stubH stubH [] [] 8500 (Or.inl (by decide))).1

/-- C10: at requested length `0` (the `hash_to_field` `count = 0` case) both
stated preconditions hold, yet `expand_message_xmd` does not return an empty
byte string: it fails (the modelled `offset % 0` remainder-by-zero panic),
and `hash_to_field` with `count = 0` fails with it. -/
theorem expandMessageXmd_len_zero_panic (H : List Nat → List Nat) (msg dst : List Nat)
    (h2 : dst.length ≤ 255) :
    (0 + 32 - 1) / 32 ≤ 255 ∧ expandMessageXmd H msg dst 0 = none ∧
      hashToField H msg dst 0 = none := by
  have he : expandMessageXmd H msg dst 0 = none := by
    rw [expandMessageXmd, if_neg (by decide), if_neg (by omega)]
    rfl
  refine ⟨by decide, he, ?_⟩
  have he' : expandMessageXmd H msg dst (0 * 48) = none := he
  rw [hashToField, he']

/-- C10 witness: the theorem evaluated at the stub hash with empty message
and DST. -/
theorem expandMessageXmd_len_zero_panic_witness :
    (0 + 32 - 1) / 32 ≤ 255 ∧ expandMessageXmd stubH [] [] 0 = none ∧
      hashToField stubH [] [] 0 = none :=
  expandMessageXmd_len_zero_panic stubH [] [] (by simp)

/-- C6: every element list returned by `hash_to_field` consists of the
consecutive 48-byte slices of `expand_message_xmd(msg, dst, count * 48)`
interpreted big-endian and reduced modulo the field prime, and every element
lies strictly below the prime. -/
theorem hashToField_slices (H : List Nat → List Nat) (msg dst : List Nat) (count : Nat)
    (out : List Nat) (hH : ∀ s, (H s).length = 32)
    (hout : hashToField H msg dst count = some out) :
    ∃ ub, expandMessageXmd H msg dst (count * 48) = some ub ∧ ub.length = count * 48 ∧
      out = (List.range count).map (fun i => fromBeBytes ((ub.drop (i * 48)).take 48) % bnP) ∧
      ∀ x ∈ out, x < bnP := by
  rcases he : expandMessageXmd H msg dst (count * 48) with _ | ub
  · rw [hashToField, he] at hout
    cases hout
  · rw [hashToField, he] at hout
    have hval := Option.some.inj hout
    refine ⟨ub, rfl, (expandMessageXmd_some_parts H msg dst _ ub hH he).2, hval.symm, ?_⟩
    intro x hx
    rw [← hval] at hx
    obtain ⟨i, _, hix⟩ := List.mem_map.mp hx
    rw [← hix]
    exact Nat.mod_lt _ (by decide)

set_option maxRecDepth 40000 in
/-- The embedded `hash_to_field` with the real SHA-256 on message `abc` and
the G1 DST yields exactly the two field elements asserted by the
repository's `test_hash2field` test (evaluated by the kernel). -/
theorem hashToField_abc_vector :
    hashToField sha256 msgAbc dstG1Bytes 2 =
      some [7951370986911800256774597109927097176311261202951929331835478768207980370345,
            8293556689416303717881563281438712057465092967957999993252567763605862533321] := by
  rfl

/-- C6 witness: the theorem evaluated with the real SHA-256 on the
repository's own `test_hash2field` vector for message `abc` and the G1 DST;
the two field elements are the decimal values asserted by the test. -/
theorem hashToField_slices_witness :
    ∃ ub, expandMessageXmd sha256 msgAbc dstG1Bytes (2 * 48) = some ub ∧ ub.length = 2 * 48 ∧
      [7951370986911800256774597109927097176311261202951929331835478768207980370345,
       8293556689416303717881563281438712057465092967957999993252567763605862533321] =
        (List.range 2).map (fun i => fromBeBytes ((ub.drop (i * 48)).take 48) % bnP) ∧
      ∀ x ∈ [7951370986911800256774597109927097176311261202951929331835478768207980370345,
             8293556689416303717881563281438712057465092967957999993252567763605862533321],
        x < bnP :=
  hashToField_slices sha256 msgAbc dstG1Bytes 2 _ sha256_length hashToField_abc_vector

/-- C5: whenever `map_to_curve` succeeds (G1 and G2), the `x` coordinate of
the returned point is selected with priority `x1` if `gx1` has a square
root, else `x2` if `gx2` has a square root, else `x3` (whose squareness is
never checked). -/
theorem mapToCurve_x_priority :
    (∀ (u : Nat) (q : Nat × Nat), mapToCurveG1 u = some q →
        q.1 = if (fqSqrt (g1Gx1 u)).isSome then g1X1 u
          else if (fqSqrt (g1Gx2 u)).isSome then g1X2 u else g1X3 u) ∧
    (∀ (v : Fq2) (q : Fq2 × Fq2), mapToCurveG2 v = some q →
        q.1 = if (fq2Sqrt (g2Gx1 v)).isSome then g2X1 v
          else if (fq2Sqrt (g2Gx2 v)).isSome then g2X2 v else g2X3 v) := by
  constructor
  · intro u q hq
    unfold mapToCurveG1 at hq
    by_cases hden : g1Den u = 0
    · rw [if_pos hden] at hq
      cases hq
    · rw [if_neg hden] at hq
      simp only [] at hq
      obtain ⟨y, hy, hqe⟩ := Option.map_eq_some'.mp hq
      rw [← hqe]
      by_cases h1 : (fqSqrt (g1Gx1 u)).isSome = true
      · simp [h1]
      · by_cases h2 : (fqSqrt (g1Gx2 u)).isSome = true
        · simp [h1, h2]
        · simp [h1, h2]
  · intro v q hq
    unfold mapToCurveG2 at hq
    by_cases hden : g2Den v = ((0 : Nat), (0 : Nat))
    · rw [if_pos hden] at hq
      cases hq
    · rw [if_neg hden] at hq
      simp only [] at hq
      obtain ⟨y, hy, hqe⟩ := Option.map_eq_some'.mp hq
      rw [← hqe]
      by_cases h1 : (fq2Sqrt (g2Gx1 v)).isSome = true
      · simp [h1]
      · by_cases h2 : (fq2Sqrt (g2Gx2 v)).isSome = true
        · simp [h1, h2]
        · simp [h1, h2]

set_option maxRecDepth 40000 in
/-- The embedded G1 SVDW map evaluated at `u = 5` (kernel evaluation). -/
theorem mapToCurveG1_five :
    mapToCurveG1 5 =
      some (20262878302148239933902159870143739200212645228355066860207035924029037262790,
            9758744144075580486226292637147400604374287218633575049759831181260788318551) := by
  rfl

set_option maxRecDepth 40000 in
/-- The embedded G2 SVDW map evaluated at `v = (1, 2)` (kernel evaluation). -/
theorem mapToCurveG2_one_two :
    mapToCurveG2 (1, 2) =
      some ((7478592837819263509850878300226387678283266354460936137560011572452527999221,
             1851234333832313226136273206057336691073681342163000693174710295348114216825),
            (16124920772789832806618856686634499963372127692529433736339494002738798977485,
             2305922367686253108772606398991042715442885848292818691678313100530891559468)) := by
  rfl

/-- C5 witness: the theorem evaluated at `u = 5` (G1, an `x2` input) and
`v = (1, 2)` (G2). -/
theorem mapToCurve_x_priority_witness :
    ((20262878302148239933902159870143739200212645228355066860207035924029037262790,
      9758744144075580486226292637147400604374287218633575049759831181260788318551) : Nat × Nat).1
      = (if (fqSqrt (g1Gx1 5)).isSome then g1X1 5
         else if (fqSqrt (g1Gx2 5)).isSome then g1X2 5 else g1X3 5) ∧
    (((7478592837819263509850878300226387678283266354460936137560011572452527999221,
       1851234333832313226136273206057336691073681342163000693174710295348114216825),
      (16124920772789832806618856686634499963372127692529433736339494002738798977485,
       2305922367686253108772606398991042715442885848292818691678313100530891559468)) : Fq2 × Fq2).1
      = (if (fq2Sqrt (g2Gx1 (1, 2))).isSome then g2X1 (1, 2)
         else if (fq2Sqrt (g2Gx2 (1, 2))).isSome then g2X2 (1, 2) else g2X3 (1, 2)) :=
  ⟨mapToCurve_x_priority.1 5 _ mapToCurveG1_five,
   mapToCurve_x_priority.2 (1, 2) _ mapToCurveG2_one_two⟩

theorem foldl_add_smul_split {P : Type} [AddCommGroup P] {R : Type} [Ring R] [Module R P]
    (h : Nat → P) :
    ∀ (l1 l2 : List R) (n : Nat) (a1 a2 : P), l1.length = l2.length →
      (List.enumFrom n (List.zipWith (· + ·) l1 l2)).foldl
          (fun acc iv => acc + iv.2 • h iv.1) (a1 + a2)
        = (List.enumFrom n l1).foldl (fun acc iv => acc + iv.2 • h iv.1) a1 +
          (List.enumFrom n l2).foldl (fun acc iv => acc + iv.2 • h iv.1) a2 := by
  intro l1
  induction l1 with
  | nil =>
      intro l2 n a1 a2 hl
      have : l2 = [] := List.eq_nil_of_length_eq_zero hl.symm
      subst this
      simp
  | cons x xs ih =>
      intro l2 n a1 a2 hl
      cases l2 with
      | nil => simp at hl
      | cons y ys =>
          simp only [List.zipWith_cons_cons, List.enumFrom_cons, List.foldl_cons]
          have e : a1 + a2 + (x + y) • h n = (a1 + x • h n) + (a2 + y • h n) := by
            rw [add_smul]
            abel
          rw [e, ih ys (n + 1) (a1 + x • h n) (a2 + y • h n) (by simpa using hl)]

/-- C9: for value vectors of equal length, `commit` applied to the
element-wise sum with the sum of the blindings equals the group sum of the
two commitments, over any commutative point group, scalar ring and
per-index generator function. -/
theorem commit_additive_homomorphism {P : Type} [AddCommGroup P] {R : Type} [Ring R]
    [Module R P] (hashPt : Nat → P) (v1 v2 : List R) (G : P) (r1 r2 : R)
    (hlen : v1.length = v2.length) :
    commit hashPt (List.zipWith (· + ·) v1 v2) G (r1 + r2) =
      commit hashPt v1 G r1 + commit hashPt v2 G r2 := by
  rw [commit, commit, commit]
  have e : (r1 + r2) • G = r1 • G + r2 • G := add_smul r1 r2 G
  rw [e]
  exact foldl_add_smul_split hashPt v1 v2 0 (r1 • G) (r2 • G) hlen

/-- C9 witness: the theorem evaluated in the integers with
`hash(i) = i + 1`, `v1 = [2, 3]`, `v2 = [5, 7]`, `G = 11`, `r1 = 13`,
`r2 = 17`. -/
theorem commit_additive_homomorphism_witness :
    commit (fun i => (i : Int) + 1)
        (List.zipWith (· + ·) ([2, 3] : List Int) ([5, 7] : List Int)) 11 (13 + 17) =
      commit (fun i => (i : Int) + 1) ([2, 3] : List Int) 11 13 +
        commit (fun i => (i : Int) + 1) ([5, 7] : List Int) 11 17 :=
  commit_additive_homomorphism (fun i => (i : Int) + 1) ([2, 3] : List Int)
    ([5, 7] : List Int) 11 13 17 (by decide)

/-- C2: the embedded `psi` is a constant function of its argument (the
source converts `a` and never uses it, operating on the generator instead),
and in particular `psi` applied to the identity point is not the identity,
contradicting the claimed endomorphism contract. -/
theorem psi_ignores_argument :
    (∀ a b : PtG2, psi a = psi b) ∧ psi none ≠ none := by
  refine ⟨fun a b => rfl, ?_⟩
  intro h
  rw [show psi none = some (fq2Mul (fq2Conj g2GenX) endoU, fq2Mul (fq2Conj g2GenY) endoV)
    from rfl] at h
  cases h

set_option maxRecDepth 200000 in
set_option maxHeartbeats 12000000 in
/-- The embedded G2 hash orchestrator with the real SHA-256 evaluated at
message `abc` and the G2 DST (kernel evaluation of the full pipeline). -/
theorem hashG2_abc_eval : hashG2 sha256 msgAbc dstG2Bytes = some hAbcPt := by
  rfl

/-- The point returned for message `abc` satisfies the twisted curve
equation. -/
theorem hAbcPt_on_curve : g2OnCurve hAbcPt = true := by
  rfl

set_option maxRecDepth 200000 in
set_option maxHeartbeats 12000000 in
/-- Multiplying the returned point by the prime group order gives the
concrete finite point `rHAbcPt` (kernel evaluation). -/
theorem rH_abc_eval : g2ScalarMul bnR hAbcPt = rHAbcPt := by
  rfl

/-- C1: the G2 hash orchestrator evaluated at the failing input
`msg = "abc"` with the G2 DST returns the concrete on-curve point `hAbcPt`,
and multiplying that point by the prime group order `bnR` yields a finite
point, not the identity: the returned point is not in the prime-order
subgroup (the broken `psi` makes `clear_cofactor` ineffective). -/
theorem hashG2_abc_not_in_subgroup :
    hashG2 sha256 msgAbc dstG2Bytes = some hAbcPt ∧ g2OnCurve hAbcPt = true ∧
      g2ScalarMul bnR hAbcPt = rHAbcPt ∧ g2ScalarMul bnR hAbcPt ≠ none := by
  refine ⟨hashG2_abc_eval, hAbcPt_on_curve, rH_abc_eval, ?_⟩
  intro hcontra
  rw [rH_abc_eval] at hcontra
  exact Option.noConfusion hcontra
